import Mathlib

/-!
Shallow embedding of the horse-betting application's core
(race-day scoring, betting ledger client logic, leaderboard) from
`horse-betting-frontend/src/App.js`, together with a spec-modelled
race-day store (the Flask backend holding `rollover()` is not part of
the frontend sources).

JavaScript numbers are embedded as `ℚ` (odds are fractional, scores
arithmetic is exact on the values that occur); horse numbers and
winners as `Int`; JS objects used as string-keyed maps as association
lists with insert-or-overwrite update, mirroring `{...obj, [k]: v}`.
-/

namespace HorseBetting

/-- Embedding of `calculatePoints` (App.js 933-937):
`if (odds > 10) return 3; if (odds > 5) return 2; return 1;` -/
def calculatePoints (odds : ℚ) : ℚ :=
  if odds > 10 then 3
  else if odds > 5 then 2
  else 1

/-- Horse record: `{number, name, odds, points}` (§3 of the spec; the
`points` field is stored on the backend's horse objects, derived from
`odds`). -/
structure Horse where
  number : Int
  name : String
  odds : ℚ
  points : ℚ
deriving DecidableEq

/-- Race record: `{id, name, time, horses, winner, status}`;
`winner = none` embeds JS `null`. -/
structure Race where
  id : String
  name : String
  time : String
  horses : List Horse
  winner : Option Int
  status : String
deriving DecidableEq

/-- Association-list lookup, embedding JS object property access
(`obj[k]`, `none` = `undefined`). -/
def lookupAL {α : Type} : List (String × α) → String → Option α
  | [], _ => none
  | p :: rest, k => if p.1 = k then some p.2 else lookupAL rest k

/-- Association-list update, embedding the JS spread update
`{...obj, [k]: v}`: an existing key keeps its position and gets the
new value, a fresh key is appended. -/
def insertAL {α : Type} : List (String × α) → String → α → List (String × α)
  | [], k, v => [(k, v)]
  | p :: rest, k, v => if p.1 = k then (k, v) :: rest else p :: insertAL rest k v

/-- The frontend keeps bets as `bets[userId][raceId] = horseNumber`. -/
abbrev UserBets := List (String × Int)

abbrev BetsMap := List (String × UserBets)

/-- `bankers[userId] = raceId`. -/
abbrev BankersMap := List (String × String)

/-- `bets[userId]?.[raceId]` — the nested lookup used throughout App.js. -/
def betFor (bets : BetsMap) (userId raceId : String) : Option Int :=
  match lookupAL bets userId with
  | none => none
  | some ub => lookupAL ub raceId

/-- One race's contribution to the daily score: the body of the
`races.forEach` loop in `calculateUserScore` (App.js 943-953).
`if (race.winner && bets[userId] && bets[userId][race.id])` performs JS
truthiness tests, so a winner or bet equal to `0` is treated as absent;
then `userBet === race.winner` selects the horse whose `number` matches
the winner and awards `calculatePoints(horse.odds)`. -/
def raceScore (bets : BetsMap) (userId : String) (race : Race) : ℚ :=
  match race.winner with
  | none => 0
  | some w =>
    if w = 0 then 0
    else
      match betFor bets userId race.id with
      | none => 0
      | some b =>
        if b = 0 then 0
        else if b = w then
          match race.horses.find? (fun h => h.number = w) with
          | some horse => calculatePoints horse.odds
          | none => 0
        else 0

/-- The `dailyScore` accumulated by the `forEach` loop before the banker
bonus (App.js 941-953). -/
def baseScore (races : List Race) (bets : BetsMap) (userId : String) : ℚ :=
  races.foldl (fun acc race => acc + raceScore bets userId race) 0

/-- Embedding of `calculateUserScore` (App.js 940-966).  The banker
bonus block: `if (bankers[userId])` (truthiness: an empty-string race id
is falsy), find the banker race, and
`if (bets[userId]?.[bankerRace.id] === bankerRace.winner) dailyScore *= 2`
— strict equality, which is true only when both sides are numbers
(`undefined === null` is false in JS). -/
def calculateUserScore (races : List Race) (bets : BetsMap) (bankers : BankersMap)
    (userId : String) : ℚ :=
  match lookupAL bankers userId with
  | none => baseScore races bets userId
  | some bRaceId =>
    if bRaceId = "" then baseScore races bets userId
    else
      match races.find? (fun race => race.id = bRaceId) with
      | none => baseScore races bets userId
      | some bankerRace =>
        match betFor bets userId bankerRace.id, bankerRace.winner with
        | some b, some w =>
          if b = w then baseScore races bets userId * 2
          else baseScore races bets userId
        | _, _ => baseScore races bets userId

theorem baseScore_eq_sum (races : List Race) (bets : BetsMap) (userId : String) :
    baseScore races bets userId = (races.map (raceScore bets userId)).sum := by
  suffices h : ∀ (l : List Race) (a : ℚ),
      l.foldl (fun acc race => acc + raceScore bets userId race) a
        = a + (l.map (raceScore bets userId)).sum by
    simpa [baseScore] using h races 0
  intro l
  induction l with
  | nil => simp
  | cons r rest ih =>
    intro a
    simp [List.foldl_cons, ih, add_assoc]

/-- C2: the odds-tier point rule, exactly as the spec states it. -/
theorem calculatePoints_spec (o : ℚ) :
    (calculatePoints o = 3 ↔ o > 10)
    ∧ (calculatePoints o = 2 ↔ 5 < o ∧ o ≤ 10)
    ∧ (calculatePoints o = 1 ↔ o ≤ 5) := by
  unfold calculatePoints
  split_ifs with h1 h2
  · refine ⟨⟨fun _ => h1, fun _ => rfl⟩, ⟨fun h => ?_, fun h => ?_⟩,
      ⟨fun h => ?_, fun h => ?_⟩⟩ <;>
      (exfalso; first | linarith [h.1, h.2] | linarith)
  · refine ⟨⟨fun h => ?_, fun h => ?_⟩, ⟨fun _ => ⟨h2, not_lt.mp h1⟩, fun _ => rfl⟩,
      ⟨fun h => ?_, fun h => ?_⟩⟩ <;>
      (exfalso; linarith)
  · have h5 : o ≤ 5 := not_lt.mp h2
    refine ⟨⟨fun h => ?_, fun h => ?_⟩, ⟨fun h => ?_, fun h => ?_⟩,
      ⟨fun _ => h5, fun _ => rfl⟩⟩ <;>
      (exfalso; first | linarith [h.1, h.2] | linarith)

/-- Applying `calculatePoints_spec` at odds 12: three points iff the
odds exceed 10. -/
theorem calculatePoints_spec_witness : calculatePoints 12 = 3 :=
  (calculatePoints_spec 12).1.mpr (by norm_num)

/-! Concrete inputs for Scenario A of the spec: one race, horse #1
(odds 3.0, 1 pt), horse #2 (odds 12.0, 3 pts), alice bets and bankers
horse #2, winner #2. -/

def horse1 : Horse := { number := 1, name := "Horse 1", odds := 3, points := 1 }

def horse2 : Horse := { number := 2, name := "Horse 2", odds := 12, points := 3 }

def raceA : Race :=
  { id := "r1", name := "Race 1", time := "12:00", horses := [horse1, horse2],
    winner := some 2, status := "completed" }

def betsA : BetsMap := [("alice", [("r1", 2)])]

def bankersA : BankersMap := [("alice", "r1")]

/-- C3: when the banker race's winner equals the user's bet on it, the
whole day's `baseScore` is doubled. -/
theorem bankerDoublesWholeDay (races : List Race) (bets : BetsMap) (bankers : BankersMap)
    (userId bRaceId : String) (bankerRace : Race) (b w : Int)
    (hbank : lookupAL bankers userId = some bRaceId)
    (hne : bRaceId ≠ "")
    (hfind : races.find? (fun race => race.id = bRaceId) = some bankerRace)
    (hbet : betFor bets userId bankerRace.id = some b)
    (hwin : bankerRace.winner = some w)
    (hbw : b = w) :
    calculateUserScore races bets bankers userId = 2 * baseScore races bets userId := by
  unfold calculateUserScore
  simp only [hbank, hfind, hbet, hwin]
  rw [if_neg hne, if_pos hbw, mul_comm]

/-- Scenario A: applying `bankerDoublesWholeDay` at the concrete race
day; the resulting score is `3 * 2 = 6`. -/
theorem bankerDoublesWholeDay_witness :
    calculateUserScore [raceA] betsA bankersA "alice" = 2 * baseScore [raceA] betsA "alice"
    ∧ calculateUserScore [raceA] betsA bankersA "alice" = 6 := by
  refine ⟨bankerDoublesWholeDay [raceA] betsA bankersA "alice" "r1" raceA 2 2
    (by decide) (by decide) (by decide) (by decide) (by decide) rfl, ?_⟩
  norm_num [calculateUserScore, baseScore, raceScore, betFor, lookupAL, calculatePoints,
    raceA, betsA, bankersA, horse1, horse2]
  all_goals decide

/-- C4: a won race with a non-zero winner awards exactly the winning
horse's stored `points` field (given that field is derived from the
odds as the spec requires), and the day's `baseScore` is the sum of the
per-race contributions. -/
theorem raceAwardsStoredPoints (bets : BetsMap) (userId : String) (race : Race)
    (w b : Int) (horse : Horse)
    (hwin : race.winner = some w) (hw0 : w ≠ 0)
    (hbet : betFor bets userId race.id = some b) (hb0 : b ≠ 0) (hbw : b = w)
    (hfind : race.horses.find? (fun h => h.number = w) = some horse)
    (hder : horse.points = calculatePoints horse.odds) :
    raceScore bets userId race = horse.points
    ∧ ∀ races : List Race,
        baseScore races bets userId = (races.map (raceScore bets userId)).sum := by
  refine ⟨?_, fun races => baseScore_eq_sum races bets userId⟩
  unfold raceScore
  simp only [hwin, hbet, hfind]
  rw [if_neg hw0, if_neg hb0, if_pos hbw]
  simp only [hfind, hder]

/-- Applying `raceAwardsStoredPoints` at Scenario A's race: alice's won
race awards horse #2's stored 3 points. -/
theorem raceAwardsStoredPoints_witness :
    raceScore betsA "alice" raceA = horse2.points
    ∧ baseScore [raceA] betsA "alice" = ([raceA].map (raceScore betsA "alice")).sum := by
  have h := raceAwardsStoredPoints betsA "alice" raceA 2 2 horse2
    (by decide) (by decide) (by decide) (by decide) rfl (by decide) (by decide)
  exact ⟨h.1, h.2 [raceA]⟩

theorem calculatePoints_exists_nat (o : ℚ) : ∃ n : ℕ, calculatePoints o = (n : ℚ) := by
  unfold calculatePoints
  split_ifs
  · exact ⟨3, by norm_num⟩
  · exact ⟨2, by norm_num⟩
  · exact ⟨1, by norm_num⟩

theorem raceScore_exists_nat (bets : BetsMap) (userId : String) (race : Race) :
    ∃ n : ℕ, raceScore bets userId race = (n : ℚ) := by
  unfold raceScore
  repeat' split
  all_goals first
    | exact calculatePoints_exists_nat _
    | (refine ⟨0, ?_⟩; norm_num)

theorem baseScore_exists_nat (races : List Race) (bets : BetsMap) (userId : String) :
    ∃ n : ℕ, baseScore races bets userId = (n : ℚ) := by
  rw [baseScore_eq_sum]
  induction races with
  | nil => exact ⟨0, by norm_num⟩
  | cons r rest ih =>
    obtain ⟨m, hm⟩ := ih
    obtain ⟨k, hk⟩ := raceScore_exists_nat bets userId r
    exact ⟨k + m, by simp [hk, hm]⟩

/-- C8: the daily score is always a non-negative integer, although odds
are fractional. -/
theorem score_nonneg_integer (races : List Race) (bets : BetsMap) (bankers : BankersMap)
    (userId : String) :
    ∃ n : ℕ, calculateUserScore races bets bankers userId = (n : ℚ) := by
  obtain ⟨m, hm⟩ := baseScore_exists_nat races bets userId
  unfold calculateUserScore
  repeat' split
  all_goals first
    | exact ⟨m, hm⟩
    | (refine ⟨2 * m, ?_⟩; rw [hm]; push_cast; ring)

/-- Applying `score_nonneg_integer` at the Scenario A day. -/
theorem score_nonneg_integer_witness :
    ∃ n : ℕ, calculateUserScore [raceA] betsA bankersA "alice" = (n : ℚ) :=
  score_nonneg_integer [raceA] betsA bankersA "alice"

/-- C9: a race whose `winner` names no horse of the race contributes
zero, and dropping it from the day leaves the base score unchanged:
scoring is total on malformed race data. -/
theorem malformedWinnerContributesZero (bets : BetsMap) (userId : String) (race : Race)
    (w : Int)
    (hwin : race.winner = some w)
    (hfind : race.horses.find? (fun h => h.number = w) = none) :
    raceScore bets userId race = 0
    ∧ ∀ rest : List Race, baseScore (race :: rest) bets userId = baseScore rest bets userId := by
  have h0 : raceScore bets userId race = 0 := by
    unfold raceScore
    simp only [hwin, hfind]
    repeat' split
    all_goals rfl
  refine ⟨h0, fun rest => ?_⟩
  rw [baseScore_eq_sum, baseScore_eq_sum]
  simp [h0]

/-- Applying `malformedWinnerContributesZero` to a race whose winner
number 9 matches no horse. -/
theorem malformedWinnerContributesZero_witness :
    raceScore betsA "alice"
      { raceA with winner := some 9 } = 0
    ∧ baseScore [{ raceA with winner := some 9 }] betsA "alice" = baseScore [] betsA "alice" := by
  have h := malformedWinnerContributesZero betsA "alice" { raceA with winner := some 9 } 9
    (by decide) (by decide)
  exact ⟨h.1, h.2 []⟩

/-- Embedding of `isBettingAllowed` (App.js 927-930).  The source body
is literally `// For testing: always allow betting regardless of time
return true;` — it ignores its `raceTime` argument and always allows
betting. -/
def isBettingAllowed (raceTime : Option String) : Bool := true

/-- The client's betting state: the `bets` and `bankers` React state
objects. -/
structure ClientState where
  bets : BetsMap
  bankers : BankersMap
deriving DecidableEq

/-- Client side of `placeBet` (App.js 969-1016): the
`isBettingAllowed` guard (error toast `Betting is closed for this
race!` and no state change when it fails), then — when the server
accepts (`response.ok`, here the `serverOk` parameter) — the optimistic
update `{...prevBets, [userId]: {...(prevBets[userId] || {}),
[raceId]: horseNumber}}`.  The second component is the error message
shown, if any. -/
def placeBet (s : ClientState) (races : List Race) (userId raceId : String)
    (horseNumber : Int) (serverOk : Bool) : ClientState × Option String :=
  if !(isBettingAllowed ((races.find? (fun r => r.id = raceId)).map (fun r => r.time))) then
    (s, some "Betting is closed for this race!")
  else if serverOk then
    ({ s with
        bets := insertAL s.bets userId
          (insertAL ((lookupAL s.bets userId).getD []) raceId horseNumber) }, none)
  else
    (s, some "Error placing bet")

/-- Client side of `setBanker` (App.js 1019-1062):
`const userBets = bets[userId] || {};` and the
`userBets.hasOwnProperty(String(raceId))` gate (the spec's
`NoBetError`), then the optimistic update
`{...prevBankers, [userId]: raceId}` when the server accepts. -/
def setBanker (s : ClientState) (userId raceId : String) (serverOk : Bool) :
    ClientState × Option String :=
  if !(((lookupAL s.bets userId).getD []).any (fun p => p.1 = raceId)) then
    (s, some "You can only select a banker from races you have bet on!")
  else if serverOk then
    ({ s with bankers := insertAL s.bankers userId raceId }, none)
  else
    (s, some "Error setting banker")

theorem lookupAL_insertAL_self {α : Type} (m : List (String × α)) (k : String) (v : α) :
    lookupAL (insertAL m k v) k = some v := by
  induction m with
  | nil => simp [insertAL, lookupAL]
  | cons p rest ih =>
    by_cases h : p.1 = k
    · simp [insertAL, lookupAL, h]
    · simp [insertAL, lookupAL, h, ih]

theorem lookupAL_insertAL_ne {α : Type} (m : List (String × α)) (k k2 : String) (v : α)
    (hne : k2 ≠ k) :
    lookupAL (insertAL m k v) k2 = lookupAL m k2 := by
  induction m with
  | nil => simp [insertAL, lookupAL, Ne.symm hne]
  | cons p rest ih =>
    by_cases h : p.1 = k
    · subst h
      simp [insertAL, lookupAL, Ne.symm hne]
    · by_cases h2 : p.1 = k2 <;> simp [insertAL, lookupAL, h, h2, hne, ih]

theorem lookupAL_eq_none_iff_any {α : Type} (m : List (String × α)) (k : String) :
    lookupAL m k = none ↔ m.any (fun p => p.1 = k) = false := by
  induction m with
  | nil => simp [lookupAL]
  | cons p rest ih =>
    by_cases h : p.1 = k <;> simp [lookupAL, h, ih]

/-- C6: setting a banker with no recorded bet for that race is rejected
with the no-bet error (the spec's `NoBetError`) and returns the state
unchanged — in particular the bankers map is untouched. -/
theorem setBankerRequiresBet (s : ClientState) (userId raceId : String) (serverOk : Bool)
    (hnobet : betFor s.bets userId raceId = none) :
    setBanker s userId raceId serverOk
      = (s, some "You can only select a banker from races you have bet on!") := by
  have hany : (((lookupAL s.bets userId).getD []).any (fun p => p.1 = raceId)) = false := by
    unfold betFor at hnobet
    cases hu : lookupAL s.bets userId with
    | none => simp [hu]
    | some ub =>
      rw [hu] at hnobet
      simpa using (lookupAL_eq_none_iff_any ub raceId).mp hnobet
  unfold setBanker
  simp [hany]

/-- Applying `setBankerRequiresBet` at a state with no bets at all. -/
theorem setBankerRequiresBet_witness :
    setBanker { bets := [], bankers := [] } "alice" "r1" true
      = ({ bets := [], bankers := [] },
          some "You can only select a banker from races you have bet on!") :=
  setBankerRequiresBet { bets := [], bankers := [] } "alice" "r1" true rfl

/-- C5 (divergence between code and spec): the betting-closure gate is
disabled in the code — `isBettingAllowed` returns `true` even for the
completed `raceA`, and `placeBet` on that completed race records the
bet and reports no error instead of failing with `BettingClosedError`. -/
theorem placeBetAllowedOnCompletedRace :
    raceA.status = "completed"
    ∧ isBettingAllowed (([raceA].find? (fun r => r.id = "r1")).map (fun r => r.time)) = true
    ∧ placeBet { bets := [], bankers := [] } [raceA] "alice" "r1" 5 true
        = ({ bets := [("alice", [("r1", 5)])], bankers := [] }, none) := by
  refine ⟨rfl, rfl, ?_⟩
  decide

/-- The invariant of C10: every banker entry points to a race the same
user has a bet on. -/
def BankerInvariant (s : ClientState) : Prop :=
  ∀ u r, lookupAL s.bankers u = some r → (betFor s.bets u r).isSome = true

/-- C10: both client mutations preserve the banker-bet invariant:
`placeBet` only adds or overwrites bet entries and never removes one,
and `setBanker` records a banker only after checking the bet exists. -/
theorem mutationsPreserveBankerInvariant (s : ClientState) (races : List Race)
    (u1 r1 : String) (h1 : Int) (ok1 : Bool) (u2 r2 : String) (ok2 : Bool)
    (hinv : BankerInvariant s) :
    BankerInvariant (placeBet s races u1 r1 h1 ok1).1
    ∧ BankerInvariant (setBanker s u2 r2 ok2).1 := by
  constructor
  · unfold placeBet
    cases ok1 with
    | false => simpa [isBettingAllowed] using hinv
    | true =>
      simp only [isBettingAllowed, Bool.not_true, Bool.false_eq_true, if_false, if_true]
      intro u r hb
      have hold := hinv u r hb
      by_cases hu : u = u1
      · subst hu
        simp only [betFor, lookupAL_insertAL_self]
        by_cases hr : r = r1
        · subst hr
          simp [lookupAL_insertAL_self]
        · rw [lookupAL_insertAL_ne _ _ _ _ hr]
          unfold betFor at hold
          cases hu2 : lookupAL s.bets u with
          | none => simp only [hu2] at hold; simp at hold
          | some ub => simp only [hu2] at hold; simpa using hold
      · simp only [betFor, lookupAL_insertAL_ne _ _ _ _ hu]
        exact hold
  · unfold setBanker
    cases hany : (((lookupAL s.bets u2).getD []).any (fun p => p.1 = r2)) with
    | false => simpa [hany] using hinv
    | true =>
      cases ok2 with
      | false => simpa [hany] using hinv
      | true =>
        simp only [hany, Bool.not_true, Bool.false_eq_true, if_false, if_true]
        intro u r hb
        by_cases hu : u = u2
        · subst hu
          rw [lookupAL_insertAL_self] at hb
          cases hb
          cases hu2 : lookupAL s.bets u with
          | none => rw [hu2] at hany; simp at hany
          | some ub =>
            rw [hu2] at hany
            simp only [betFor, hu2]
            rcases ho : lookupAL ub r2 with _ | v
            · have hfalse := (lookupAL_eq_none_iff_any ub r2).mp ho
              simp only [Option.getD] at hany
              rw [hfalse] at hany
              exact absurd hany (by simp)
            · simp [ho]
        · rw [lookupAL_insertAL_ne _ _ _ _ hu] at hb
          exact hinv u r hb

/-- Applying `mutationsPreserveBankerInvariant` starting from the empty
client state. -/
theorem mutationsPreserveBankerInvariant_witness :
    BankerInvariant { bets := [], bankers := [] }
    ∧ BankerInvariant
        (placeBet { bets := [], bankers := [] } [] "alice" "r1" 5 true).1
    ∧ BankerInvariant (setBanker { bets := [], bankers := [] } "bob" "r2" true).1 := by
  have hinv : BankerInvariant { bets := [], bankers := [] } := by
    intro u r hb
    simp [lookupAL] at hb
  have h := mutationsPreserveBankerInvariant { bets := [], bankers := [] } []
    "alice" "r1" 5 true "bob" "r2" true hinv
  exact ⟨hinv, h.1, h.2⟩

/-- User record: `{id, name, totalScore}` (§3 of the spec; App.js user
objects). -/
structure User where
  id : String
  name : String
  totalScore : ℚ
deriving DecidableEq

/-- One rendered leaderboard row: `{...user, dailyScore}` (App.js
166-169). -/
structure LBEntry where
  user : User
  dailyScore : ℚ
deriving DecidableEq

/-- The sort key of the leaderboard comparator
`(a, b) => (b.totalScore + b.dailyScore) - (a.totalScore + a.dailyScore)`
(App.js 170): the displayed overall score. -/
def lbKey (e : LBEntry) : ℚ := e.user.totalScore + e.dailyScore

/-- The order the comparator realizes: `a` may precede `b` exactly when
`b`'s overall score does not exceed `a`'s (descending). -/
def lbLe (a b : LBEntry) : Prop := lbKey b ≤ lbKey a

instance : DecidableRel lbLe := fun a b =>
  inferInstanceAs (Decidable (lbKey b ≤ lbKey a))

instance : IsTotal LBEntry lbLe := ⟨fun a b => le_total (lbKey b) (lbKey a)⟩

instance : IsTrans LBEntry lbLe := ⟨fun _ _ _ hab hbc => le_trans hbc hab⟩

/-- Embedding of the `LeaderboardTab` pipeline (App.js 165-171):
`users.map(user => ({...user, dailyScore: calculateUserScore(user.id)}))
.sort(comparator)`.  JS `Array.prototype.sort` is stable, and a stable
sort under a total preorder has a unique result, so it is embedded as a
stable insertion sort under `lbLe`. -/
def leaderboardTab (users : List User) (races : List Race) (bets : BetsMap)
    (bankers : BankersMap) : List LBEntry :=
  List.insertionSort lbLe
    (users.map (fun u => { user := u, dailyScore := calculateUserScore races bets bankers u.id }))

/-- C7: the leaderboard rows are exactly the users, each scored as
`totalScore + dailyScore` with `dailyScore` from the scoring engine;
rows are sorted by descending overall score; and rows of any given
overall score keep their input order (stability, expressed as a filter
equation against the unsorted row list). -/
theorem leaderboardTab_spec (users : List User) (races : List Race) (bets : BetsMap)
    (bankers : BankersMap) :
    List.Sorted lbLe (leaderboardTab users races bets bankers)
    ∧ (∀ e, e ∈ leaderboardTab users races bets bankers ↔
        ∃ u ∈ users,
          e = { user := u, dailyScore := calculateUserScore races bets bankers u.id })
    ∧ ∀ q : ℚ,
        (leaderboardTab users races bets bankers).filter (fun e => decide (lbKey e = q))
          = (users.map (fun u =>
              ({ user := u, dailyScore := calculateUserScore races bets bankers u.id }
                : LBEntry))).filter
              (fun e => decide (lbKey e = q)) := by
  refine ⟨List.sorted_insertionSort lbLe _, ?_, ?_⟩
  · intro e
    rw [leaderboardTab, List.mem_insertionSort, List.mem_map]
    constructor
    · rintro ⟨u, hu, he⟩
      exact ⟨u, hu, he.symm⟩
    · rintro ⟨u, hu, he⟩
      exact ⟨u, hu, he.symm⟩
  · intro q
    set p : LBEntry → Bool := fun e => decide (lbKey e = q) with hp
    set input : List LBEntry := users.map (fun u =>
      ({ user := u, dailyScore := calculateUserScore races bets bankers u.id }
        : LBEntry)) with hinput
    have hkeys : ∀ e ∈ input.filter p, lbKey e = q := by
      intro e he
      have h1 := List.of_mem_filter he
      simpa [hp] using h1
    have hpair : (input.filter p).Pairwise lbLe := by
      refine List.pairwise_of_forall_mem_list ?_
      intro a ha b hb
      rw [lbLe, hkeys a ha, hkeys b hb]
    have hsub : List.Sublist (input.filter p) (List.insertionSort lbLe input) :=
      List.sublist_insertionSort hpair (List.filter_sublist input)
    have hsub2 : List.Sublist (input.filter p)
        ((List.insertionSort lbLe input).filter p) := by
      have heq : (input.filter p).filter p = input.filter p :=
        List.filter_eq_self.mpr (fun a ha => List.of_mem_filter ha)
      simpa [heq] using hsub.filter p
    have hlen : ((List.insertionSort lbLe input).filter p).length
        = (input.filter p).length :=
      ((List.perm_insertionSort lbLe input).filter p).length_eq
    have hfinal : input.filter p = (List.insertionSort lbLe input).filter p :=
      hsub2.eq_of_length hlen.symm
    show (List.insertionSort lbLe input).filter p = input.filter p
    exact hfinal.symm

def userAlice : User := { id := "alice", name := "Alice", totalScore := 10 }

def userBob : User := { id := "bob", name := "Bob", totalScore := 1 }

/-- Applying `leaderboardTab_spec` at a concrete two-user leaderboard. -/
theorem leaderboardTab_spec_witness :
    List.Sorted lbLe (leaderboardTab [userAlice, userBob] [raceA] betsA bankersA) :=
  (leaderboardTab_spec [userAlice, userBob] [raceA] betsA bankersA).1

/-- A stored race day: §3's `RaceDay` plus its materialized
`DailyScoreRecord`s (`scores`). -/
structure RaceDayRec where
  date : String
  races : List Race
  bets : BetsMap
  bankers : BankersMap
  status : String
  scores : List (String × ℚ)
deriving DecidableEq

/-- The backend's persistent state relevant to rollover: the users
collection and the race-day store. -/
structure SystemState where
  users : List User
  days : List RaceDayRec
deriving DecidableEq

inductive RolloverError where
  | alreadyRolledOver
  | dayNotFound
deriving DecidableEq

/-- Modelled from the spec: the backend `rollover()` operation (§4.2) is
not among the repository's frontend sources — App.js only posts to
`/api/reset` (lines 1174-1197).  Per §4.2 it computes every user's
daily score via the Scoring Engine, appends a `DailyScoreRecord` per
user into the day's payload, sets the day's status to `historical`, and
adds the daily score into each `User.totalScore`; invoking it on an
already-historical day is rejected with `AlreadyRolledOverError` (a
`ConflictError`) before any state is touched. -/
def rollover (s : SystemState) (date : String) : SystemState × Option RolloverError :=
  match s.days.find? (fun d => d.date = date) with
  | none => (s, some RolloverError.dayNotFound)
  | some day =>
    if day.status = "historical" then
      (s, some RolloverError.alreadyRolledOver)
    else
      ({ users := s.users.map (fun u =>
            { u with totalScore :=
                u.totalScore + calculateUserScore day.races day.bets day.bankers u.id }),
         days := s.days.map (fun d =>
            if d.date = date then
              { d with
                  status := "historical"
                  scores := s.users.map (fun u =>
                    (u.id, calculateUserScore day.races day.bets day.bankers u.id)) }
            else d) }, none)

/-- C1: a second `rollover()` on a day that is already historical is
rejected with `AlreadyRolledOverError` and leaves the whole state — in
particular every `User.totalScore` — unchanged. -/
theorem rolloverRejectsHistorical (s : SystemState) (date : String) (day : RaceDayRec)
    (hfind : s.days.find? (fun d => d.date = date) = some day)
    (hhist : day.status = "historical") :
    rollover s date = (s, some RolloverError.alreadyRolledOver)
    ∧ (rollover s date).1.users = s.users := by
  unfold rollover
  simp [hfind, hhist]

def historicalDay : RaceDayRec :=
  { date := "2025-01-01", races := [raceA], bets := betsA, bankers := bankersA,
    status := "historical", scores := [("alice", 6)] }

def stateWithHistory : SystemState :=
  { users := [userAlice], days := [historicalDay] }

/-- Applying `rolloverRejectsHistorical` to a store holding one
already-historical day. -/
theorem rolloverRejectsHistorical_witness :
    rollover stateWithHistory "2025-01-01"
      = (stateWithHistory, some RolloverError.alreadyRolledOver) :=
  (rolloverRejectsHistorical stateWithHistory "2025-01-01" historicalDay
    (by decide) rfl).1

end HorseBetting
